import Mathlib

/-!
Verification of the interactive_drawing repository core.

Shallow embedding of:
- the Square class and its boundary clipper
  (src/libs/square.py and the near-identical copy in src/static_grid_drawing.py),
- the interval mappers (src/libs/common.py and src/common.py),
- the static grid batch assembly of src/static_grid_drawing.py,
- the per-line endpoint computation of src/interactive_grid.py.

Machine floats are modelled as exact rationals or reals; the IEEE behaviour
of division by zero in the clipper (a nonzero numerator over zero gives an
infinity) is modelled explicitly with WithTop.
-/

namespace InteractiveDrawing

/-- Rectangle bounds, the attributes x_min, x_max, y_min, y_max of the
Square class in src/libs/square.py. -/
structure Square (α : Type) where
  x_min : α
  x_max : α
  y_min : α
  y_max : α
deriving DecidableEq

variable {α : Type} [LinearOrderedField α]

/-- Square.__init__ of src/libs/square.py: start from the class defaults
(0, 1, 0, 1), multiply every bound by scale (the _resize step), then add the
translation componentwise (the _translate step). -/
def Square.make (scale tx ty : α) : Square α :=
  ⟨0 * scale + tx, 1 * scale + tx, 0 * scale + ty, 1 * scale + ty⟩

/-- Corner point p1 (bottom left) set by _set_corners. -/
def Square.p1 (sq : Square α) : α × α := (sq.x_min, sq.y_min)

/-- Corner point p2 (bottom right) set by _set_corners. -/
def Square.p2 (sq : Square α) : α × α := (sq.x_max, sq.y_min)

/-- Corner point p3 (top right) set by _set_corners. -/
def Square.p3 (sq : Square α) : α × α := (sq.x_max, sq.y_max)

/-- Corner point p4 (top left) set by _set_corners. -/
def Square.p4 (sq : Square α) : α × α := (sq.x_min, sq.y_max)

/-- The x border selected by inside_lines: if cos(angle) >= 0 the ray shoots
to the right and the x_max edge is selected, otherwise the x_min edge.
The argument c stands for cos(angle). -/
def Square.border_x (sq : Square α) (c : α) : α :=
  if 0 ≤ c then sq.x_max else sq.x_min

/-- The y border selected by inside_lines: if sin(angle) >= 0 the ray shoots
up and the y_max edge is selected, otherwise the y_min edge.
The argument s stands for sin(angle). -/
def Square.border_y (sq : Square α) (s : α) : α :=
  if 0 ≤ s then sq.y_max else sq.y_min

/-- The expression np.abs(num / den) under IEEE semantics: a zero denominator
sends a nonzero numerator to an infinity, which np.abs turns into plus
infinity, here the top element.  The remaining IEEE case 0 / 0 (a nan) cannot
arise in inside_lines: when the denominator cos(angle) is zero the selected
border is x_max, and the numerator x_max - start_x is positive because
np.random.uniform samples start_x from the half open range
from x_min to x_max; likewise for sin. -/
def absDivInf (num den : α) : WithTop α :=
  if den = 0 then ⊤ else ((|num / den| : α) : WithTop α)

/-- The per-line clipped length computed by inside_lines: the minimum of the
distances to the selected x border and the selected y border along the ray
with direction (c, s) = (cos(angle), sin(angle)). -/
def Square.line_length (sq : Square α) (sx sy c s : α) : WithTop α :=
  min (absDivInf (sq.border_x c - sx) c) (absDivInf (sq.border_y s - sy) s)

/-- The clipped length as a plain value.  The default 0 is taken only when
both candidates are infinite, which requires cos(angle) = sin(angle) = 0 and
is impossible for an actual angle. -/
def Square.line_length_val (sq : Square α) (sx sy c s : α) : α :=
  (sq.line_length sx sy c s).untop' 0

/-- The line end point computed by inside_lines:
ends = starts + lengths * (cos(angle), sin(angle)). -/
def Square.end_point (sq : Square α) (sx sy c s : α) : α × α :=
  (sx + sq.line_length_val sx sy c s * c,
   sy + sq.line_length_val sx sy c s * s)

/-- Membership in the closed rectangle. -/
def Square.contains (sq : Square α) (x y : α) : Prop :=
  sq.x_min ≤ x ∧ x ≤ sq.x_max ∧ sq.y_min ≤ y ∧ y ≤ sq.y_max

/-- One row of the flattened coordinate buffer returned by inside_lines:
either a coordinate pair or the nan sentinel pair. -/
inductive Row (α : Type) where
  | pt (x y : α)
  | nan
deriving DecidableEq

/-- Recognizer for the nan sentinel row. -/
def Row.isSentinel : Row α → Bool
  | Row.nan => true
  | _ => false

/-- The buffer returned by inside_lines for the given random start points:
np.stack([starts_x, starts_y, ends_x, ends_y, nans, nans], axis=1) reshaped
to (count * 3, 2), that is, for every line the rows
[start, end, nan sentinel] in order. -/
def Square.inside_lines (sq : Square α) (starts : List (α × α)) (c s : α) :
    List (Row α) :=
  starts.flatMap (fun p =>
    [Row.pt p.1 p.2,
     Row.pt (sq.end_point p.1 p.2 c s).1 (sq.end_point p.1 p.2 c s).2,
     Row.nan])

/-- The rows contributed by one cell in static_grid_drawing.draw:
the inside_lines buffer followed by the single extra sentinel row that the
loop appends after every cell. -/
def cell_rows (sq : Square α) (starts : List (α × α)) (c s : α) :
    List (Row α) :=
  sq.inside_lines starts c s ++ [Row.nan]

/-- The python expression range(a, b): the integers a, a+1, ..., b-1. -/
def range2 (a b : ℤ) : List ℤ :=
  (List.range (b - a).toNat).map (fun (i : ℕ) => a + (i : ℤ))

/-- Cell enumeration in static_grid_drawing.draw:
for x in range(*x_range): for y in range(*y_range). -/
def gridCells (x_range y_range : ℤ × ℤ) : List (ℤ × ℤ) :=
  (range2 x_range.1 x_range.2).flatMap
    (fun x => (range2 y_range.1 y_range.2).map (fun y => (x, y)))

/-- numpy.concatenate on a list of arrays: requires at least one array and
raises ValueError on an empty list, modelled as none. -/
def concatenate (arrays : List (List (Row α))) : Option (List (Row α)) :=
  if arrays.isEmpty then none else some arrays.flatten

/-- The batch assembly of static_grid_drawing.draw: the loop appends, per
cell, the inside_lines buffer and a one-row sentinel array, and the final
numpy.concatenate joins them.  The per-cell buffer is a parameter because it
depends on random start points and on the per-cell count and angle. -/
def draw_points (x_range y_range : ℤ × ℤ)
    (inside_rows_at : ℤ → ℤ → List (Row α)) : Option (List (Row α)) :=
  concatenate ((gridCells x_range y_range).flatMap
    (fun cell => [inside_rows_at cell.1 cell.2, [Row.nan]]))

/-- The same batch assembly with the per-cell data given explicitly as a
square, a list of start points and a direction, without the final
concatenate guard (used for structural statements about nonempty grids). -/
def draw_points_list (cells : List (Square α × List (α × α) × α × α)) :
    List (Row α) :=
  (cells.map (fun cl => cell_rows cl.1 cl.2.1 cl.2.2.1 cl.2.2.2)).flatten

/-- normalize_to_unit_interval of src/libs/common.py: raise ValueError when
interval[0] >= interval[1], raise ValueError when any value is below
interval[0] or above interval[1], otherwise return
(values - interval[0]) / (interval[1] - interval[0]) elementwise.
Arrays are modelled as lists of their elements; a raise is modelled
as none. -/
def normalize_to_unit_interval (values : List ℚ) (interval : ℚ × ℚ) :
    Option (List ℚ) :=
  if interval.2 ≤ interval.1 then none
  else if (∃ v ∈ values, interval.1 > v) ∨ (∃ v ∈ values, v > interval.2) then
    none
  else some (values.map (fun v => (v - interval.1) / (interval.2 - interval.1)))

/-- scale_to_custom_interval of src/libs/common.py: raise ValueError when
interval[0] >= interval[1], raise ValueError when any value is below 0 or
above 1, otherwise return values * (interval[1] - interval[0]) + interval[0]
elementwise. -/
def scale_to_custom_interval (values : List ℚ) (interval : ℚ × ℚ) :
    Option (List ℚ) :=
  if interval.2 ≤ interval.1 then none
  else if (∃ v ∈ values, 0 > v) ∨ (∃ v ∈ values, v > 1) then none
  else some (values.map (fun v => v * (interval.2 - interval.1) + interval.1))

/-- normalize of src/common.py: assert interval[0] <= interval[1] (note: not
strict, unlike the libs variant), assert every element is at least
interval[0] and at most interval[1], then return the affine rescaling.
A failed assert is modelled as none.  When the interval is degenerate the
python code goes on to divide by zero; numpy then returns nan values with a
runtime warning instead of raising, so the result is still a value.  The
Lean convention x / 0 = 0 stands in for the nan payload; the theorems only
use the distinction between a value and a failure. -/
def normalize (value : List ℚ) (interval : ℚ × ℚ) : Option (List ℚ) :=
  if ¬ interval.1 ≤ interval.2 then none
  else if ¬ ∀ v ∈ value, interval.1 ≤ v then none
  else if ¬ ∀ v ∈ value, v ≤ interval.2 then none
  else some (value.map (fun v => (v - interval.1) / (interval.2 - interval.1)))

/-- numpy.arctan2(y, x): the signed angle of the vector (x, y), in the
interval from -pi to pi. -/
noncomputable def arctan2 (y x : ℝ) : ℝ :=
  if 0 < x then Real.arctan (y / x)
  else if x < 0 ∧ 0 ≤ y then Real.arctan (y / x) + Real.pi
  else if x < 0 ∧ y < 0 then Real.arctan (y / x) - Real.pi
  else if x = 0 ∧ 0 < y then Real.pi / 2
  else if x = 0 ∧ y < 0 then -(Real.pi / 2)
  else 0

/-- One line of DrawManager._relative_ending_points in src/interactive_grid.py:
the relative end point is random_length * (cos(angle), sin(angle)) where
angle = arctan2(cell_to_anchor_dy, cell_to_anchor_dx) + angle_offset and
random_length is drawn uniformly from the half open range from 5 to
cell_size / 2.  Note that no clipping to the cell takes place here. -/
noncomputable def relative_ending_point (dx dy angle_offset length : ℝ) :
    ℝ × ℝ :=
  (length * Real.cos (arctan2 dy dx + angle_offset),
   length * Real.sin (arctan2 dy dx + angle_offset))

/-- The value returned by normalize in src/common.py once its asserts have
passed: (value - interval[0]) / (interval[1] - interval[0]). -/
noncomputable def normalize_value (v : ℝ) (interval : ℝ × ℝ) : ℝ :=
  (v - interval.1) / (interval.2 - interval.1)

/-- The value returned by map_to_interval in src/common.py once its asserts
have passed: value * (interval[1] - interval[0]) + interval[0]. -/
noncomputable def map_to_interval_value (v : ℝ) (interval : ℝ × ℝ) : ℝ :=
  v * (interval.2 - interval.1) + interval.1

/-- The python int() conversion on a float: truncation toward zero. -/
noncomputable def int_trunc (r : ℝ) : ℤ :=
  if 0 ≤ r then ⌊r⌋ else ⌈r⌉

/-- The per-cell distance numpy.sqrt(x ** 2 + y ** 2) computed in
static_grid_drawing.draw. -/
noncomputable def distance_to_origin (x y : ℤ) : ℝ :=
  Real.sqrt ((x : ℝ) ^ 2 + (y : ℝ) ^ 2)

/-- The first get_distance_to_origin_range of src/static_grid_drawing.py:
(sqrt(x_range[0]^2 + y_range[0]^2), sqrt(x_range[1]^2 + y_range[1]^2)). -/
noncomputable def distance_range_1 (x_range y_range : ℤ × ℤ) : ℝ × ℝ :=
  (Real.sqrt ((x_range.1 : ℝ) ^ 2 + (y_range.1 : ℝ) ^ 2),
   Real.sqrt ((x_range.2 : ℝ) ^ 2 + (y_range.2 : ℝ) ^ 2))

/-- The second get_distance_to_origin_range of src/static_grid_drawing.py
(the example 4 redefinition):
(0, sqrt(numpy.abs(x_range).max() ^ 2 + numpy.abs(y_range).max() ^ 2)). -/
noncomputable def distance_range_2 (x_range y_range : ℤ × ℤ) : ℝ × ℝ :=
  (0, Real.sqrt (((max |x_range.1| |x_range.2| : ℤ) : ℝ) ^ 2 +
    ((max |y_range.1| |y_range.2| : ℤ) : ℝ) ^ 2))

/-- The per-cell line count computed in static_grid_drawing.draw:
count = int(map_to_interval(normalize(distance_to_origin, dist_range),
count_range)).  The asserts inside normalize and map_to_interval are the
subject of the distance range bounding theorems; here the returned value is
modelled. -/
noncomputable def cell_count (dist_range count_range : ℝ × ℝ) (x y : ℤ) : ℤ :=
  int_trunc (map_to_interval_value
    (normalize_value (distance_to_origin x y) dist_range) count_range)

/-- A concrete two-cell configuration for the batch layout theorems: two unit
cells side by side, one line each, direction (1, 0), with start points at the
cell centers. -/
def twoCells : List (Square ℚ × List (ℚ × ℚ) × ℚ × ℚ) :=
  [(Square.make 1 0 0, [(1 / 2, 1 / 2)], 1, 0),
   (Square.make 1 1 0, [(3 / 2, 1 / 2)], 1, 0)]

/-! Clipper helper lemmas.  Throughout, c and s stand for cos(angle) and
sin(angle); the selected border on an axis with bounds lo, hi and direction
component c is the expression if 0 <= c then hi else lo. -/

theorem absDivInf_of_ne (num : α) {den : α} (h : den ≠ 0) :
    absDivInf num den = ((|num / den| : α) : WithTop α) := by
  simp [absDivInf, h]

theorem absDivInf_of_eq (num : α) {den : α} (h : den = 0) :
    absDivInf num den = ⊤ := by
  simp [absDivInf, h]

/-- The distance along the ray to the selected border is nonnegative when the
start lies between the bounds: the border selection matches the direction
sign, so numerator and denominator have the same sign. -/
theorem sel_div_nonneg {lo hi s c : α} (h1 : lo ≤ s) (h2 : s ≤ hi) :
    0 ≤ ((if 0 ≤ c then hi else lo) - s) / c := by
  rcases lt_or_le c 0 with hneg | hpos
  · rw [if_neg (not_le.mpr hneg)]
    rw [div_nonneg_iff]
    exact Or.inr ⟨by linarith, hneg.le⟩
  · rw [if_pos hpos]
    exact div_nonneg (by linarith) hpos

/-- Moving along the ray by any parameter between 0 and the selected border
distance keeps the coordinate between the bounds. -/
theorem stay_in_interval {lo hi s c t : α} (h1 : lo ≤ s) (h2 : s ≤ hi)
    (ht : 0 ≤ t) (hb : c ≠ 0 → t ≤ ((if 0 ≤ c then hi else lo) - s) / c) :
    lo ≤ s + t * c ∧ s + t * c ≤ hi := by
  rcases lt_trichotomy c 0 with hneg | hzero | hpos
  · have hb2 := hb hneg.ne
    rw [if_neg (not_le.mpr hneg)] at hb2
    have h3 : lo - s ≤ t * c := (le_div_iff_of_neg hneg).mp hb2
    constructor <;> nlinarith
  · rw [hzero, mul_zero, add_zero]
    exact ⟨h1, h2⟩
  · have hb2 := hb hpos.ne.symm
    rw [if_pos hpos.le] at hb2
    have h3 : t * c ≤ hi - s := (le_div_iff₀ hpos).mp hb2
    constructor <;> nlinarith

/-- Moving along the ray by a parameter strictly beyond the selected border
distance leaves the interval between the bounds. -/
theorem exit_interval {lo hi s c t : α} (hc : c ≠ 0)
    (ht : ((if 0 ≤ c then hi else lo) - s) / c < t) :
    ¬ (lo ≤ s + t * c ∧ s + t * c ≤ hi) := by
  rintro ⟨hl, hr⟩
  rcases lt_or_le c 0 with hneg | hpos
  · rw [if_neg (not_le.mpr hneg)] at ht
    have h3 : t * c < lo - s := (div_lt_iff_of_neg hneg).mp ht
    linarith
  · have hpos2 : 0 < c := hpos.lt_of_ne (Ne.symm hc)
    rw [if_pos hpos] at ht
    have h3 : hi - s < t * c := (div_lt_iff₀ hpos2).mp ht
    linarith

/-- Core correctness of the inside_lines clipper: for a start point drawn
from the half open sampling ranges and a direction that is not the zero
vector, the computed length is a finite nonnegative value, the ray stays in
the closed rectangle up to that length, the end point lies on a selected
border, and every longer parameter leaves the rectangle. -/
theorem line_length_spec (sq : Square α) (sx sy c s : α)
    (hx1 : sq.x_min ≤ sx) (hx2 : sx < sq.x_max)
    (hy1 : sq.y_min ≤ sy) (hy2 : sy < sq.y_max)
    (hcs : c ≠ 0 ∨ s ≠ 0) :
    ∃ d : α, sq.line_length sx sy c s = (d : WithTop α) ∧ 0 ≤ d ∧
      (∀ t, 0 ≤ t → t ≤ d → sq.contains (sx + t * c) (sy + t * s)) ∧
      (sx + d * c = sq.border_x c ∨ sy + d * s = sq.border_y s) ∧
      (∀ t, d < t → ¬ sq.contains (sx + t * c) (sy + t * s)) := by
  simp only [Square.line_length, Square.border_x, Square.border_y,
    Square.contains]
  by_cases hc : c = 0
  · have hs : s ≠ 0 := hcs.resolve_left (not_not_intro hc)
    refine ⟨((if 0 ≤ s then sq.y_max else sq.y_min) - sy) / s,
      ?_, ?_, ?_, ?_, ?_⟩
    · rw [absDivInf_of_eq _ hc, absDivInf_of_ne _ hs,
        abs_of_nonneg (sel_div_nonneg hy1 hy2.le)]
      exact min_eq_right le_top
    · exact sel_div_nonneg hy1 hy2.le
    · intro t ht1 ht2
      have hx := stay_in_interval hx1 hx2.le ht1 (fun h => absurd hc h)
      have hy := stay_in_interval hy1 hy2.le ht1 (fun _ => ht2)
      exact ⟨hx.1, hx.2, hy.1, hy.2⟩
    · right
      rw [div_mul_cancel₀ _ hs]
      ring
    · intro t ht hcontain
      exact exit_interval hs ht ⟨hcontain.2.2.1, hcontain.2.2.2⟩
  · by_cases hs : s = 0
    · refine ⟨((if 0 ≤ c then sq.x_max else sq.x_min) - sx) / c,
        ?_, ?_, ?_, ?_, ?_⟩
      · rw [absDivInf_of_eq _ hs, absDivInf_of_ne _ hc,
          abs_of_nonneg (sel_div_nonneg hx1 hx2.le)]
        exact min_eq_left le_top
      · exact sel_div_nonneg hx1 hx2.le
      · intro t ht1 ht2
        have hx := stay_in_interval hx1 hx2.le ht1 (fun _ => ht2)
        have hy := stay_in_interval hy1 hy2.le ht1 (fun h => absurd hs h)
        exact ⟨hx.1, hx.2, hy.1, hy.2⟩
      · left
        rw [div_mul_cancel₀ _ hc]
        ring
      · intro t ht hcontain
        exact exit_interval hc ht ⟨hcontain.1, hcontain.2.1⟩
    · refine ⟨min (((if 0 ≤ c then sq.x_max else sq.x_min) - sx) / c)
        (((if 0 ≤ s then sq.y_max else sq.y_min) - sy) / s),
        ?_, ?_, ?_, ?_, ?_⟩
      · rw [absDivInf_of_ne _ hc, absDivInf_of_ne _ hs,
          abs_of_nonneg (sel_div_nonneg hx1 hx2.le),
          abs_of_nonneg (sel_div_nonneg hy1 hy2.le)]
        exact (WithTop.coe_min _ _).symm
      · exact le_min (sel_div_nonneg hx1 hx2.le) (sel_div_nonneg hy1 hy2.le)
      · intro t ht1 ht2
        have hx := stay_in_interval hx1 hx2.le ht1
          (fun _ => ht2.trans (min_le_left _ _))
        have hy := stay_in_interval hy1 hy2.le ht1
          (fun _ => ht2.trans (min_le_right _ _))
        exact ⟨hx.1, hx.2, hy.1, hy.2⟩
      · rcases le_total (((if 0 ≤ c then sq.x_max else sq.x_min) - sx) / c)
          (((if 0 ≤ s then sq.y_max else sq.y_min) - sy) / s) with h | h
        · left
          rw [min_eq_left h, div_mul_cancel₀ _ hc]
          ring
        · right
          rw [min_eq_right h, div_mul_cancel₀ _ hs]
          ring
      · intro t ht hcontain
        rcases min_lt_iff.mp ht with h | h
        · exact exit_interval hc h ⟨hcontain.1, hcontain.2.1⟩
        · exact exit_interval hs h ⟨hcontain.2.2.1, hcontain.2.2.2⟩

/-! Theorems -/

/-- C10: for every scale at least 0 and every translation, Square
construction yields ordered bounds on both axes, strictly ordered for
positive scale, and the corner points p1, p2, p3, p4 are exactly the four
combinations of those bounds. -/
theorem square_make_ordered_bounds_and_corners (scale tx ty : α)
    (hs : 0 ≤ scale) :
    (Square.make scale tx ty).x_min ≤ (Square.make scale tx ty).x_max ∧
    (Square.make scale tx ty).y_min ≤ (Square.make scale tx ty).y_max ∧
    (0 < scale →
      (Square.make scale tx ty).x_min < (Square.make scale tx ty).x_max ∧
      (Square.make scale tx ty).y_min < (Square.make scale tx ty).y_max) ∧
    (Square.make scale tx ty).p1 =
      ((Square.make scale tx ty).x_min, (Square.make scale tx ty).y_min) ∧
    (Square.make scale tx ty).p2 =
      ((Square.make scale tx ty).x_max, (Square.make scale tx ty).y_min) ∧
    (Square.make scale tx ty).p3 =
      ((Square.make scale tx ty).x_max, (Square.make scale tx ty).y_max) ∧
    (Square.make scale tx ty).p4 =
      ((Square.make scale tx ty).x_min, (Square.make scale tx ty).y_max) := by
  refine ⟨?_, ?_, fun hpos => ⟨?_, ?_⟩, rfl, rfl, rfl, rfl⟩ <;>
    simp only [Square.make] <;> nlinarith

/-- Witness for C10 at scale 2 and translation (3, 4). -/
theorem square_make_ordered_bounds_and_corners_witness :
    (Square.make (2 : ℚ) 3 4).x_min ≤ (Square.make (2 : ℚ) 3 4).x_max ∧
    (Square.make (2 : ℚ) 3 4).y_min ≤ (Square.make (2 : ℚ) 3 4).y_max ∧
    ((0 : ℚ) < 2 →
      (Square.make (2 : ℚ) 3 4).x_min < (Square.make (2 : ℚ) 3 4).x_max ∧
      (Square.make (2 : ℚ) 3 4).y_min < (Square.make (2 : ℚ) 3 4).y_max) ∧
    (Square.make (2 : ℚ) 3 4).p1 =
      ((Square.make (2 : ℚ) 3 4).x_min, (Square.make (2 : ℚ) 3 4).y_min) ∧
    (Square.make (2 : ℚ) 3 4).p2 =
      ((Square.make (2 : ℚ) 3 4).x_max, (Square.make (2 : ℚ) 3 4).y_min) ∧
    (Square.make (2 : ℚ) 3 4).p3 =
      ((Square.make (2 : ℚ) 3 4).x_max, (Square.make (2 : ℚ) 3 4).y_max) ∧
    (Square.make (2 : ℚ) 3 4).p4 =
      ((Square.make (2 : ℚ) 3 4).x_min, (Square.make (2 : ℚ) 3 4).y_max) :=
  square_make_ordered_bounds_and_corners 2 3 4 (by norm_num)

/-- C5: evaluation of the two normalize variants at a degenerate and at an
inverted interval.  The assert-based normalize of src/common.py accepts the
degenerate interval (5, 5) at value 5, because its guard is a non-strict
comparison, and returns a value instead of failing; the libs variant
normalize_to_unit_interval rejects it; both reject the inverted interval
(10, 0). -/
theorem normalize_degenerate_interval_eval :
    (normalize [(5 : ℚ)] (5, 5)).isSome = true ∧
    normalize_to_unit_interval [(5 : ℚ)] (5, 5) = none ∧
    normalize [(5 : ℚ)] (10, 0) = none ∧
    normalize_to_unit_interval [(5 : ℚ)] (10, 0) = none := by
  decide

/-- C1: for every start point drawn from the half open sampling ranges of a
cell and every angle, the inside_lines clipper (which selects the x_max edge
when cos(angle) >= 0 and the x_min edge otherwise, the y_max edge when
sin(angle) >= 0 and the y_min edge otherwise, and takes the minimum of the
two absolute candidate distances) returns the exact distance to the first
edge hit: the length is finite and nonnegative, the ray stays inside the
square up to it, the end lies on a selected edge, and any longer parameter
leaves the square.  This holds in all four quadrants of the angle. -/
theorem clipper_correct_all_quadrants (sq : Square ℝ) (sx sy θ : ℝ)
    (hx1 : sq.x_min ≤ sx) (hx2 : sx < sq.x_max)
    (hy1 : sq.y_min ≤ sy) (hy2 : sy < sq.y_max) :
    ∃ d : ℝ,
      sq.line_length sx sy (Real.cos θ) (Real.sin θ) = (d : WithTop ℝ) ∧
      0 ≤ d ∧
      (∀ t, 0 ≤ t → t ≤ d →
        sq.contains (sx + t * Real.cos θ) (sy + t * Real.sin θ)) ∧
      (sx + d * Real.cos θ = sq.border_x (Real.cos θ) ∨
       sy + d * Real.sin θ = sq.border_y (Real.sin θ)) ∧
      (∀ t, d < t →
        ¬ sq.contains (sx + t * Real.cos θ) (sy + t * Real.sin θ)) := by
  refine line_length_spec sq sx sy (Real.cos θ) (Real.sin θ) hx1 hx2 hy1 hy2 ?_
  by_contra h
  push_neg at h
  have h1 := Real.sin_sq_add_cos_sq θ
  rw [h.1, h.2] at h1
  norm_num at h1

/-- Witness for C1 on the unit square with start (1/2, 1/2) and angle 0. -/
theorem clipper_correct_all_quadrants_witness :
    ∃ d : ℝ,
      (Square.make 1 0 0).line_length (1 / 2) (1 / 2) (Real.cos 0)
        (Real.sin 0) = (d : WithTop ℝ) ∧
      0 ≤ d ∧
      (∀ t, 0 ≤ t → t ≤ d →
        (Square.make 1 0 0).contains (1 / 2 + t * Real.cos 0)
          (1 / 2 + t * Real.sin 0)) ∧
      (1 / 2 + d * Real.cos 0 = (Square.make 1 0 0).border_x (Real.cos 0) ∨
       1 / 2 + d * Real.sin 0 = (Square.make 1 0 0).border_y (Real.sin 0)) ∧
      (∀ t, d < t →
        ¬ (Square.make 1 0 0).contains (1 / 2 + t * Real.cos 0)
          (1 / 2 + t * Real.sin 0)) :=
  clipper_correct_all_quadrants (Square.make 1 0 0) (1 / 2) (1 / 2) 0
    (by norm_num [Square.make]) (by norm_num [Square.make])
    (by norm_num [Square.make]) (by norm_num [Square.make])

/-- C4: no explicit division-by-zero guard is needed in the clipper.  When
cos(angle) = 0 and the start point comes from the half open sampling range,
the selected x edge is x_max with a positive numerator (so the IEEE division
gives plus infinity, not nan), the x candidate is the top element, the
minimum reduces to the y candidate alone, and the returned length is still a
finite nonnegative value; moreover on the unit square with start (1/2, 1/2)
and angle 0 the returned length is exactly 1/2. -/
theorem no_division_guard_needed (sq : Square ℝ) (sx sy θ : ℝ)
    (_hx1 : sq.x_min ≤ sx) (hx2 : sx < sq.x_max) (hc : Real.cos θ = 0) :
    (0 < sq.border_x (Real.cos θ) - sx ∧
     absDivInf (sq.border_x (Real.cos θ) - sx) (Real.cos θ) = ⊤ ∧
     sq.line_length sx sy (Real.cos θ) (Real.sin θ) =
       absDivInf (sq.border_y (Real.sin θ) - sy) (Real.sin θ) ∧
     ∃ d : ℝ, 0 ≤ d ∧
       sq.line_length sx sy (Real.cos θ) (Real.sin θ) = (d : WithTop ℝ)) ∧
    (Square.make 1 0 0).line_length (1 / 2) (1 / 2) (Real.cos 0)
      (Real.sin 0) = ((1 / 2 : ℝ) : WithTop ℝ) := by
  constructor
  · have hs : Real.sin θ ≠ 0 := by
      intro h
      have h1 := Real.sin_sq_add_cos_sq θ
      rw [h, hc] at h1
      norm_num at h1
    refine ⟨?_, absDivInf_of_eq _ hc, ?_,
      |(sq.border_y (Real.sin θ) - sy) / Real.sin θ|, abs_nonneg _, ?_⟩
    · rw [hc]
      simp only [Square.border_x, le_refl, if_pos]
      linarith
    · rw [Square.line_length, absDivInf_of_eq _ hc]
      exact min_eq_right le_top
    · rw [Square.line_length, absDivInf_of_eq _ hc, absDivInf_of_ne _ hs]
      exact min_eq_right le_top
  · rw [Real.cos_zero, Real.sin_zero, Square.line_length,
      absDivInf_of_eq _ rfl, absDivInf_of_ne _ one_ne_zero, min_eq_left le_top]
    have hb : (Square.make (1:ℝ) 0 0).border_x 1 = 1 := by
      norm_num [Square.border_x, Square.make]
    rw [hb]
    have habs : |((1 : ℝ) - 1 / 2) / 1| = 1 / 2 := by
      rw [abs_of_nonneg] <;> norm_num
    rw [habs]

/-- Witness for C4 at angle pi/2 on the unit square with start (1/2, 1/2). -/
theorem no_division_guard_needed_witness :
    ((0 : ℝ) <
       (Square.make 1 0 0).border_x (Real.cos (Real.pi / 2)) - 1 / 2 ∧
     absDivInf ((Square.make 1 0 0).border_x (Real.cos (Real.pi / 2)) - 1 / 2)
       (Real.cos (Real.pi / 2)) = ⊤ ∧
     (Square.make 1 0 0).line_length (1 / 2) (1 / 2) (Real.cos (Real.pi / 2))
       (Real.sin (Real.pi / 2)) =
       absDivInf ((Square.make 1 0 0).border_y (Real.sin (Real.pi / 2)) - 1 / 2)
         (Real.sin (Real.pi / 2)) ∧
     ∃ d : ℝ, 0 ≤ d ∧
       (Square.make 1 0 0).line_length (1 / 2) (1 / 2)
         (Real.cos (Real.pi / 2)) (Real.sin (Real.pi / 2)) =
         (d : WithTop ℝ)) ∧
    (Square.make 1 0 0).line_length (1 / 2) (1 / 2) (Real.cos 0)
      (Real.sin 0) = ((1 / 2 : ℝ) : WithTop ℝ) :=
  no_division_guard_needed (Square.make 1 0 0) (1 / 2) (1 / 2) (Real.pi / 2)
    (by norm_num [Square.make]) (by norm_num [Square.make])
    Real.cos_pi_div_two

/-- C3 amended: in the square variants (src/libs/square.py and the copy in
src/static_grid_drawing.py) the end point computed by inside_lines lies on or
inside the square, for every angle and every start point from the half open
sampling ranges. -/
theorem square_variant_end_point_in_bounds (sq : Square ℝ) (sx sy θ : ℝ)
    (hx1 : sq.x_min ≤ sx) (hx2 : sx < sq.x_max)
    (hy1 : sq.y_min ≤ sy) (hy2 : sy < sq.y_max) :
    sq.contains (sq.end_point sx sy (Real.cos θ) (Real.sin θ)).1
      (sq.end_point sx sy (Real.cos θ) (Real.sin θ)).2 := by
  have hcs : Real.cos θ ≠ 0 ∨ Real.sin θ ≠ 0 := by
    by_contra h
    push_neg at h
    have h1 := Real.sin_sq_add_cos_sq θ
    rw [h.1, h.2] at h1
    norm_num at h1
  obtain ⟨d, hd, hd0, hstay, hhit, hexit⟩ :=
    line_length_spec sq sx sy (Real.cos θ) (Real.sin θ) hx1 hx2 hy1 hy2 hcs
  have hv : sq.line_length_val sx sy (Real.cos θ) (Real.sin θ) = d := by
    rw [Square.line_length_val, hd]
    rfl
  have hin := hstay d hd0 le_rfl
  simpa [Square.end_point, hv] using hin

/-- Witness for the C3 amended theorem on the unit square with start
(1/2, 1/2) and angle 0. -/
theorem square_variant_end_point_in_bounds_witness :
    (Square.make (1:ℝ) 0 0).contains
      ((Square.make (1:ℝ) 0 0).end_point (1 / 2) (1 / 2) (Real.cos 0)
        (Real.sin 0)).1
      ((Square.make (1:ℝ) 0 0).end_point (1 / 2) (1 / 2) (Real.cos 0)
        (Real.sin 0)).2 :=
  square_variant_end_point_in_bounds (Square.make 1 0 0) (1 / 2) (1 / 2) 0
    (by norm_num [Square.make]) (by norm_num [Square.make])
    (by norm_num [Square.make]) (by norm_num [Square.make])

/-- C3 counterexample: the interactive pygame variant does not keep end
points inside their cell.  With the default cell_size 30, in the cell with
row 0 and col 0 (bounds 0 to 30 on both axes), an anchor five cells to the
right (cell_to_anchor_dx = 5, dy = 0), slider offset 0, a sampled start
x coordinate 29 (inside the sampling range) and a sampled length 10 (inside
the sampling range from 5 to 15), the end point x coordinate is 39, far
beyond the cell bound 30. -/
theorem interactive_end_point_escapes_cell :
    ((5 : ℝ) ≤ 10 ∧ (10 : ℝ) < 30 / 2) ∧
    ((0 : ℝ) ≤ 29 ∧ (29 : ℝ) < 30) ∧
    29 + (relative_ending_point 5 0 0 10).1 = 39 ∧
    ¬ (29 + (relative_ending_point 5 0 0 10).1 ≤ 30) := by
  have harc : arctan2 0 5 = 0 := by
    rw [arctan2, if_pos (by norm_num : (0:ℝ) < 5)]
    norm_num [Real.arctan_zero]
  have hend : (relative_ending_point 5 0 0 10).1 = 10 := by
    rw [relative_ending_point]
    simp [harc, Real.cos_zero]
  refine ⟨⟨by norm_num, by norm_num⟩, ⟨by norm_num, by norm_num⟩, ?_, ?_⟩ <;>
    rw [hend] <;> norm_num

/-! List and grid helper lemmas. -/

theorem map_id_of_mem {β : Type} {l : List β} {f : β → β}
    (h : ∀ x ∈ l, f x = x) : l.map f = l := by
  induction l with
  | nil => rfl
  | cons a l ih =>
    simp only [List.map_cons]
    rw [h a (List.mem_cons_self a l),
      ih (fun x hx => h x (List.mem_cons_of_mem a hx))]

theorem mem_range2 {a b x : ℤ} : x ∈ range2 a b ↔ a ≤ x ∧ x < b := by
  simp only [range2, List.mem_map, List.mem_range]
  constructor
  · rintro ⟨i, hi, rfl⟩
    omega
  · rintro ⟨h1, h2⟩
    exact ⟨(x - a).toNat, by omega, by
      show a + ((x - a).toNat : ℤ) = x
      omega⟩

theorem mem_gridCells {xr yr : ℤ × ℤ} {p : ℤ × ℤ} :
    p ∈ gridCells xr yr ↔
      (xr.1 ≤ p.1 ∧ p.1 < xr.2) ∧ (yr.1 ≤ p.2 ∧ p.2 < yr.2) := by
  obtain ⟨px, py⟩ := p
  simp only [gridCells, List.mem_flatMap, List.mem_map, mem_range2,
    Prod.mk.injEq]
  constructor
  · rintro ⟨x, hx, y, hy, rfl, rfl⟩
    exact ⟨hx, hy⟩
  · rintro ⟨hx, hy⟩
    exact ⟨px, hx, py, hy, rfl, rfl⟩

theorem countP_inside_lines (sq : Square α) (starts : List (α × α)) (c s : α) :
    (sq.inside_lines starts c s).countP Row.isSentinel = starts.length := by
  induction starts with
  | nil => rfl
  | cons p rest ih =>
    simp only [Square.inside_lines] at ih
    simp [Square.inside_lines, List.flatMap_cons, List.countP_append,
      List.countP_cons, Row.isSentinel, ih]

theorem countP_draw_points_list
    (cells : List (Square α × List (α × α) × α × α)) :
    (draw_points_list cells).countP Row.isSentinel =
      (cells.map (fun cl => cl.2.1.length + 1)).sum := by
  induction cells with
  | nil => rfl
  | cons cl rest ih =>
    simp only [draw_points_list, List.map_cons, List.flatten_cons,
      List.countP_append, List.sum_cons] at ih ⊢
    rw [ih, cell_rows, List.countP_append, countP_inside_lines]
    simp [Row.isSentinel, List.countP_cons]

theorem inside_lines_ends_with_sentinel (sq : Square α)
    (starts : List (α × α)) (c s : α) (h : starts ≠ []) :
    ∃ q, sq.inside_lines starts c s = q ++ [Row.nan] := by
  induction starts with
  | nil => exact absurd rfl h
  | cons p rest ih =>
    rcases eq_or_ne rest [] with hr | hr
    · subst hr
      refine ⟨[Row.pt p.1 p.2,
        Row.pt (sq.end_point p.1 p.2 c s).1 (sq.end_point p.1 p.2 c s).2], ?_⟩
      simp [Square.inside_lines]
    · obtain ⟨q, hq⟩ := ih hr
      refine ⟨Row.pt p.1 p.2 :: Row.pt (sq.end_point p.1 p.2 c s).1
        (sq.end_point p.1 p.2 c s).2 :: Row.nan :: q, ?_⟩
      simp only [Square.inside_lines, List.flatMap_cons] at hq ⊢
      rw [hq]
      simp

theorem cell_rows_ends_with_two_sentinels (sq : Square α)
    (starts : List (α × α)) (c s : α) (h : starts ≠ []) :
    ∃ q, cell_rows sq starts c s = q ++ [Row.nan, Row.nan] := by
  obtain ⟨q, hq⟩ := inside_lines_ends_with_sentinel sq starts c s h
  refine ⟨q, ?_⟩
  rw [cell_rows, hq]
  simp

/-- The count value of static_grid_drawing.draw over the nine-cell grid with
the example 4 distance range and count_range (0, 150), as a floor
expression. -/
theorem count_formula (x y : ℤ) :
    cell_count (distance_range_2 ((-1, 2) : ℤ × ℤ) ((-1, 2) : ℤ × ℤ))
      ((0, 150) : ℝ × ℝ) x y =
      ⌊distance_to_origin x y / Real.sqrt 8 * 150⌋ := by
  have hm : (max |(-1 : ℤ)| |(2 : ℤ)| : ℤ) = 2 := by decide
  have h2 : distance_range_2 ((-1, 2) : ℤ × ℤ) ((-1, 2) : ℤ × ℤ) =
      (0, Real.sqrt 8) := by
    rw [distance_range_2]
    rw [show ((-1, 2) : ℤ × ℤ).1 = -1 from rfl,
      show ((-1, 2) : ℤ × ℤ).2 = 2 from rfl, hm]
    norm_num
  have hnn : 0 ≤ normalize_value (distance_to_origin x y) (0, Real.sqrt 8) *
      ((150 : ℝ) - 0) + 0 := by
    rw [normalize_value]
    simp only [sub_zero, add_zero]
    apply mul_nonneg _ (by norm_num)
    exact div_nonneg (Real.sqrt_nonneg _) (Real.sqrt_nonneg _)
  rw [cell_count, h2, map_to_interval_value, int_trunc, if_pos hnn,
    normalize_value]
  norm_num

/-! Claim theorems for the interval mapper and the static grid pipeline. -/

/-- C2: the round-trip law of the interval mapper in src/libs/common.py.
For every interval with lo strictly below hi and every list of values inside
the closed interval, normalize_to_unit_interval succeeds and
scale_to_custom_interval maps its result back to exactly the original
values (exact rational equality, hence within any floating tolerance). -/
theorem normalize_scale_round_trip (values : List ℚ) (lo hi : ℚ)
    (hlt : lo < hi) (hin : ∀ v ∈ values, lo ≤ v ∧ v ≤ hi) :
    ∃ u, normalize_to_unit_interval values (lo, hi) = some u ∧
      scale_to_custom_interval u (lo, hi) = some values := by
  have hne : hi - lo ≠ 0 := sub_ne_zero.mpr hlt.ne.symm
  have hpos : (0 : ℚ) < hi - lo := sub_pos.mpr hlt
  refine ⟨values.map (fun v => (v - lo) / (hi - lo)), ?_, ?_⟩
  · rw [normalize_to_unit_interval]
    rw [if_neg (not_le.mpr hlt), if_neg ?_]
    rintro (⟨v, hv, hlt2⟩ | ⟨v, hv, hgt⟩)
    · exact absurd (hin v hv).1 (not_le.mpr hlt2)
    · exact absurd (hin v hv).2 (not_le.mpr hgt)
  · rw [scale_to_custom_interval]
    rw [if_neg (not_le.mpr hlt), if_neg ?_]
    · congr 1
      rw [List.map_map]
      apply map_id_of_mem
      intro v _
      show (v - lo) / (hi - lo) * (hi - lo) + lo = v
      rw [div_mul_cancel₀ _ hne]
      ring
    · rintro (⟨u, hu, hlt2⟩ | ⟨u, hu, hgt⟩) <;>
        obtain ⟨v, hv, rfl⟩ := List.mem_map.mp hu
      · exact absurd (div_nonneg (sub_nonneg.mpr (hin v hv).1) hpos.le)
          (not_le.mpr hlt2)
      · have h1 : (v - lo) / (hi - lo) ≤ 1 :=
          (div_le_one hpos).mpr (by linarith [(hin v hv).2])
        exact absurd h1 (not_le.mpr hgt)

/-- Witness for C2 with values [2, 5] and interval (0, 10). -/
theorem normalize_scale_round_trip_witness :
    ∃ u, normalize_to_unit_interval [(2 : ℚ), 5] (0, 10) = some u ∧
      scale_to_custom_interval u (0, 10) = some [(2 : ℚ), 5] :=
  normalize_scale_round_trip [2, 5] 0 10 (by norm_num)
    (by intro v hv; fin_cases hv <;> norm_num)

/-- C6 counterexample: the first get_distance_to_origin_range of
src/static_grid_drawing.py does not bound the cell distances for every grid.
Over the grid with x_range = y_range = (-1, 2) the cell (0, 0) is a grid
cell whose distance to the origin, 0, lies strictly below the computed lower
bound sqrt 2, so normalize would fail on it. -/
theorem distance_range_1_fails_to_bound :
    ((0, 0) : ℤ × ℤ) ∈ gridCells ((-1, 2) : ℤ × ℤ) ((-1, 2) : ℤ × ℤ) ∧
    ¬ ((distance_range_1 ((-1, 2) : ℤ × ℤ) ((-1, 2) : ℤ × ℤ)).1 ≤
      distance_to_origin 0 0) := by
  constructor
  · decide
  · have h0 : distance_to_origin 0 0 = 0 := by
      rw [distance_to_origin]
      norm_num
    have h1 : 0 < (distance_range_1 ((-1, 2) : ℤ × ℤ) ((-1, 2) : ℤ × ℤ)).1 := by
      rw [distance_range_1]
      apply Real.sqrt_pos.mpr
      norm_num
    rw [h0]
    exact not_le.mpr h1

/-- C6 amended: the example 4 variant of get_distance_to_origin_range,
(0, sqrt(max(abs(x_range)) ^ 2 + max(abs(y_range)) ^ 2)), bounds the distance
to origin of every cell of every grid, so normalizing each cell distance
against it never fails; the range is moreover computed once per pass, before
the cell loop, in draw. -/
theorem distance_range_2_bounds_all_cells (x_range y_range : ℤ × ℤ)
    (cell : ℤ × ℤ) (hmem : cell ∈ gridCells x_range y_range) :
    (distance_range_2 x_range y_range).1 ≤ distance_to_origin cell.1 cell.2 ∧
    distance_to_origin cell.1 cell.2 ≤ (distance_range_2 x_range y_range).2 := by
  obtain ⟨⟨hx1, hx2⟩, hy1, hy2⟩ := mem_gridCells.mp hmem
  constructor
  · exact Real.sqrt_nonneg _
  · rw [distance_to_origin, distance_range_2]
    apply Real.sqrt_le_sqrt
    have hxl : -(max |x_range.1| |x_range.2|) ≤ cell.1 := by
      have h1 := neg_abs_le x_range.1
      have h2 := le_max_left |x_range.1| |x_range.2|
      linarith
    have hxu : cell.1 ≤ max |x_range.1| |x_range.2| := by
      have h1 := le_abs_self x_range.2
      have h2 := le_max_right |x_range.1| |x_range.2|
      linarith
    have hyl : -(max |y_range.1| |y_range.2|) ≤ cell.2 := by
      have h1 := neg_abs_le y_range.1
      have h2 := le_max_left |y_range.1| |y_range.2|
      linarith
    have hyu : cell.2 ≤ max |y_range.1| |y_range.2| := by
      have h1 := le_abs_self y_range.2
      have h2 := le_max_right |y_range.1| |y_range.2|
      linarith
    have hx : (cell.1 : ℝ) ^ 2 ≤ ((max |x_range.1| |x_range.2| : ℤ) : ℝ) ^ 2 :=
      sq_le_sq' (by exact_mod_cast hxl) (by exact_mod_cast hxu)
    have hy : (cell.2 : ℝ) ^ 2 ≤ ((max |y_range.1| |y_range.2| : ℤ) : ℝ) ^ 2 :=
      sq_le_sq' (by exact_mod_cast hyl) (by exact_mod_cast hyu)
    exact add_le_add hx hy

/-- Witness for the C6 amended theorem at the grid with
x_range = y_range = (-1, 2) and cell (1, 1). -/
theorem distance_range_2_bounds_all_cells_witness :
    (distance_range_2 ((-1, 2) : ℤ × ℤ) ((-1, 2) : ℤ × ℤ)).1 ≤
      distance_to_origin 1 1 ∧
    distance_to_origin 1 1 ≤
      (distance_range_2 ((-1, 2) : ℤ × ℤ) ((-1, 2) : ℤ × ℤ)).2 :=
  distance_range_2_bounds_all_cells ((-1, 2)) ((-1, 2)) ((1, 1)) (by decide)

/-- C7 counterexample: cell groups are not separated by exactly one sentinel
row.  In the concrete two cell batch with one line per cell the batch holds
four sentinel rows (every line is followed by its own sentinel row and every
cell appends one more), so no decomposition into two sentinel-free groups
separated by a single sentinel row exists. -/
theorem two_cell_batch_not_single_break :
    ¬ ∃ g1 g2 : List (Row ℚ), g1.countP Row.isSentinel = 0 ∧
      g2.countP Row.isSentinel = 0 ∧
      draw_points_list twoCells = g1 ++ [Row.nan] ++ g2 := by
  rintro ⟨g1, g2, h1, h2, heq⟩
  have hc : (draw_points_list twoCells).countP Row.isSentinel = 4 := by decide
  rw [heq] at hc
  simp only [List.countP_append, h1, h2, List.countP_cons, List.countP_nil,
    Row.isSentinel, if_true] at hc
  omega

/-- C7 amended: in the batch built by draw every cell's rows are contiguous
(the batch is the concatenation of the per-cell blocks); the number of
sentinel rows equals the total line count plus one extra sentinel per cell,
because inside_lines already ends every line with a sentinel row and the
loop appends one more per cell; hence every nonempty cell block ends with
two consecutive sentinel rows, which is what separates it from the next
cell; and the grid with x_range = y_range = (-1, 2) has exactly 9 cells. -/
theorem batch_sentinel_structure
    (cells : List (Square ℚ × List (ℚ × ℚ) × ℚ × ℚ))
    (cl : Square ℚ × List (ℚ × ℚ) × ℚ × ℚ) (hne : cl.2.1 ≠ []) :
    (draw_points_list cells).countP Row.isSentinel =
      (cells.map (fun c0 => c0.2.1.length + 1)).sum ∧
    (∃ q, cell_rows cl.1 cl.2.1 cl.2.2.1 cl.2.2.2 =
      q ++ [Row.nan, Row.nan]) ∧
    (gridCells ((-1, 2) : ℤ × ℤ) ((-1, 2) : ℤ × ℤ)).length = 9 :=
  ⟨countP_draw_points_list cells,
   cell_rows_ends_with_two_sentinels cl.1 cl.2.1 cl.2.2.1 cl.2.2.2 hne,
   by decide⟩

/-- Witness for the C7 amended theorem at the concrete two cell batch and
its first cell. -/
theorem batch_sentinel_structure_witness :
    (draw_points_list twoCells).countP Row.isSentinel =
      (twoCells.map (fun c0 => c0.2.1.length + 1)).sum ∧
    (∃ q, cell_rows (Square.make (1 : ℚ) 0 0) [((1 : ℚ) / 2, (1 : ℚ) / 2)]
      1 0 = q ++ [Row.nan, Row.nan]) ∧
    (gridCells ((-1, 2) : ℤ × ℤ) ((-1, 2) : ℤ × ℤ)).length = 9 :=
  batch_sentinel_structure twoCells
    (Square.make 1 0 0, [(1 / 2, 1 / 2)], 1, 0) (by decide)

/-- C8 counterexample: an empty grid does not yield an empty batch without
error; draw reaches the final numpy.concatenate with an empty list of
arrays, which raises ValueError (modelled as none). -/
theorem empty_grid_concatenate_fails :
    draw_points ((0, 0) : ℤ × ℤ) ((0, 0) : ℤ × ℤ)
      (fun _ _ => ([] : List (Row ℚ))) = none ∧
    draw_points ((0, 0) : ℤ × ℤ) ((0, 0) : ℤ × ℤ)
      (fun _ _ => ([] : List (Row ℚ))) ≠ some [] := by
  constructor <;> decide

/-- C8 amended: for a grid with zero cells the cell loop contributes no
arrays and draw fails in the final concatenate call instead of returning an
empty batch, for every y range and every per-cell buffer. -/
theorem empty_grid_draw_returns_none (y_range : ℤ × ℤ)
    (inside_rows_at : ℤ → ℤ → List (Row ℚ)) :
    gridCells ((0, 0) : ℤ × ℤ) y_range = [] ∧
    draw_points ((0, 0) : ℤ × ℤ) y_range inside_rows_at = none := by
  have hg : gridCells ((0, 0) : ℤ × ℤ) y_range = [] := rfl
  refine ⟨hg, ?_⟩
  rw [draw_points, hg]
  rfl

/-- C9 counterexample: over the grid with x_range = y_range = (-1, 2),
reference point (0, 0), the example 4 distance range and count_range
(0, 150), the cell (0, 0) closest to the reference point gets line count 0
while the corner cell (1, 1) gets 75, so the closest cell does not have the
maximum line count. -/
theorem closest_cell_count_not_maximal :
    cell_count (distance_range_2 ((-1, 2) : ℤ × ℤ) ((-1, 2) : ℤ × ℤ))
      ((0, 150) : ℝ × ℝ) 0 0 = 0 ∧
    cell_count (distance_range_2 ((-1, 2) : ℤ × ℤ) ((-1, 2) : ℤ × ℤ))
      ((0, 150) : ℝ × ℝ) 1 1 = 75 ∧
    ((1, 1) : ℤ × ℤ) ∈ gridCells ((-1, 2) : ℤ × ℤ) ((-1, 2) : ℤ × ℤ) ∧
    cell_count (distance_range_2 ((-1, 2) : ℤ × ℤ) ((-1, 2) : ℤ × ℤ))
      ((0, 150) : ℝ × ℝ) 0 0 <
    cell_count (distance_range_2 ((-1, 2) : ℤ × ℤ) ((-1, 2) : ℤ × ℤ))
      ((0, 150) : ℝ × ℝ) 1 1 := by
  have hd0 : distance_to_origin 0 0 = 0 := by
    rw [distance_to_origin]
    norm_num
  have hd1 : distance_to_origin 1 1 = Real.sqrt 2 := by
    rw [distance_to_origin]
    norm_num
  have h82 : Real.sqrt 8 = 2 * Real.sqrt 2 := by
    rw [show (8 : ℝ) = 2 ^ 2 * 2 by norm_num,
      Real.sqrt_mul (by positivity), Real.sqrt_sq (by norm_num : (0:ℝ) ≤ 2)]
  have hq : Real.sqrt 2 / Real.sqrt 8 = 1 / 2 := by
    rw [h82, div_eq_iff (by positivity : (2 : ℝ) * Real.sqrt 2 ≠ 0)]
    ring
  have hc0 : cell_count (distance_range_2 ((-1, 2) : ℤ × ℤ)
      ((-1, 2) : ℤ × ℤ)) ((0, 150) : ℝ × ℝ) 0 0 = 0 := by
    rw [count_formula, hd0]
    norm_num
  have hc1 : cell_count (distance_range_2 ((-1, 2) : ℤ × ℤ)
      ((-1, 2) : ℤ × ℤ)) ((0, 150) : ℝ × ℝ) 1 1 = 75 := by
    rw [count_formula, hd1, hq,
      show (1 : ℝ) / 2 * 150 = ((75 : ℤ) : ℝ) by norm_num,
      Int.floor_intCast]
  exact ⟨hc0, hc1, by decide, by rw [hc0, hc1]; norm_num⟩

/-- C9 amended: over that grid the line count grows with the distance to
the reference point: the closest cell (0, 0) has the minimum count and the
corner cell (1, 1) attains the maximum, over every cell of the grid.  (The
docstring of DrawManager._generate in the interactive variant describes the
count as inversely proportional to the distance, but both variants compute a
count that grows with the distance.) -/
theorem cell_counts_increase_with_distance (cell : ℤ × ℤ)
    (hmem : cell ∈ gridCells ((-1, 2) : ℤ × ℤ) ((-1, 2) : ℤ × ℤ)) :
    cell_count (distance_range_2 ((-1, 2) : ℤ × ℤ) ((-1, 2) : ℤ × ℤ))
      ((0, 150) : ℝ × ℝ) 0 0 ≤
    cell_count (distance_range_2 ((-1, 2) : ℤ × ℤ) ((-1, 2) : ℤ × ℤ))
      ((0, 150) : ℝ × ℝ) cell.1 cell.2 ∧
    cell_count (distance_range_2 ((-1, 2) : ℤ × ℤ) ((-1, 2) : ℤ × ℤ))
      ((0, 150) : ℝ × ℝ) cell.1 cell.2 ≤
    cell_count (distance_range_2 ((-1, 2) : ℤ × ℤ) ((-1, 2) : ℤ × ℤ))
      ((0, 150) : ℝ × ℝ) 1 1 := by
  obtain ⟨⟨hx1, hx2⟩, hy1, hy2⟩ := mem_gridCells.mp hmem
  have hx1a : (-1 : ℤ) ≤ cell.1 := hx1
  have hx2a : cell.1 < 2 := hx2
  have hy1a : (-1 : ℤ) ≤ cell.2 := hy1
  have hy2a : cell.2 < 2 := hy2
  rw [count_formula, count_formula, count_formula]
  have hdn : 0 ≤ distance_to_origin cell.1 cell.2 := Real.sqrt_nonneg _
  have hs8 : (0 : ℝ) < Real.sqrt 8 := Real.sqrt_pos.mpr (by norm_num)
  have hd0 : distance_to_origin 0 0 = 0 := by
    rw [distance_to_origin]
    norm_num
  have hdc : distance_to_origin cell.1 cell.2 ≤ distance_to_origin 1 1 := by
    rw [distance_to_origin, distance_to_origin]
    apply Real.sqrt_le_sqrt
    have hxr1 : (-1 : ℝ) ≤ (cell.1 : ℝ) := by exact_mod_cast hx1a
    have hxr2 : (cell.1 : ℝ) ≤ 1 := by
      exact_mod_cast (by omega : cell.1 ≤ 1)
    have hyr1 : (-1 : ℝ) ≤ (cell.2 : ℝ) := by exact_mod_cast hy1a
    have hyr2 : (cell.2 : ℝ) ≤ 1 := by
      exact_mod_cast (by omega : cell.2 ≤ 1)
    have hxs : (cell.1 : ℝ) ^ 2 ≤ 1 := by nlinarith
    have hys : (cell.2 : ℝ) ^ 2 ≤ 1 := by nlinarith
    push_cast
    nlinarith
  constructor
  · apply Int.floor_le_floor
    rw [hd0]
    have hnn : 0 ≤ distance_to_origin cell.1 cell.2 / Real.sqrt 8 * 150 :=
      mul_nonneg (div_nonneg hdn hs8.le) (by norm_num)
    simpa using hnn
  · apply Int.floor_le_floor
    exact mul_le_mul_of_nonneg_right
      ((div_le_div_iff_of_pos_right hs8).mpr hdc) (by norm_num)

/-- Witness for the C9 amended theorem at the cell (-1, 0). -/
theorem cell_counts_increase_with_distance_witness :
    cell_count (distance_range_2 ((-1, 2) : ℤ × ℤ) ((-1, 2) : ℤ × ℤ))
      ((0, 150) : ℝ × ℝ) 0 0 ≤
    cell_count (distance_range_2 ((-1, 2) : ℤ × ℤ) ((-1, 2) : ℤ × ℤ))
      ((0, 150) : ℝ × ℝ) (-1) 0 ∧
    cell_count (distance_range_2 ((-1, 2) : ℤ × ℤ) ((-1, 2) : ℤ × ℤ))
      ((0, 150) : ℝ × ℝ) (-1) 0 ≤
    cell_count (distance_range_2 ((-1, 2) : ℤ × ℤ) ((-1, 2) : ℤ × ℤ))
      ((0, 150) : ℝ × ℝ) 1 1 :=
  cell_counts_increase_with_distance ((-1, 0)) (by decide)

end InteractiveDrawing
